import Mathlib

/-!
Verification development for the csci-451-hw4 repository.

The program `hw4` (src/hw4.c) spawns two pthreads sharing one slot variable
`readInteger`, a `finished` flag, one mutex `syncMutex` and two condition
variables `integerReadCondition` / `integerWroteCondition`:

* `readIntegersThreadStart` opens the input file, and, holding the mutex,
  repeatedly calls `scanFileExact(inFile, 1, "%d\n", &readInteger)`; after a
  successful scan it signals `integerReadCondition` and waits on
  `integerWroteCondition`; at end of input it sets `finished`, signals
  `integerReadCondition`, unlocks, closes the input file and exits.
* `writeIntegersThreadStart` locks the mutex and loops: wait on
  `integerReadCondition`; if `finished`, break; otherwise print the slot value
  once (odd, per C remainder `% 2`) or twice (even) with `fprintf`, then signal
  `integerWroteCondition`.
* `hw4` opens the output file, creates both threads, joins both, destroys the
  synchronization objects and closes the output file.

The development embeds this as a small-step transition system over an explicit
state record, one atomic step per mutex-protected region of the C code (a
condition wait splits a region, since `pthread_cond_wait` releases the mutex),
plus a character-level model of `vfscanf` with the format `"%d\n"` as used by
`scanFileExact` (src/util/file.c).
-/

namespace Hw4

/-! ## Model of `scanFileExact(file, 1, "%d\n", &x)` (src/util/file.c)

`vfscanf` with format `"%d\n"`: the `%d` conversion skips leading whitespace,
then reads an optional sign followed by a nonempty digit run; the trailing
whitespace directive `"\n"` consumes any (possibly empty) run of whitespace.
The return value seen by `scanFileExactVA` is `EOF` when end of input is
reached before the first conversion (only whitespace remained, or a lone sign
character at end of input), `0` on a matching failure (first non-whitespace
text is not an integer), and `1` on success.  `scanFileExactVA` then returns
`false` on `EOF`, returns `true` on match count 1, and calls
`abortWithErrorFmt` when the match count is 0. -/

/-- The characters accepted by C `isspace` in the default locale, which is
what `vfscanf` skips for whitespace directives and before `%d`. -/
def isSpaceC (c : Char) : Bool :=
  c == ' ' || c == '\t' || c == '\n' || c == '\x0b' || c == '\x0c' || c == '\r'

/-- Drop the maximal leading whitespace run of the stream. -/
def skipWs : List Char → List Char
  | [] => []
  | c :: cs => if isSpaceC c then skipWs cs else c :: cs

/-- Split the stream into its maximal leading digit run and the rest. -/
def takeDigits : List Char → List Char × List Char
  | [] => ([], [])
  | c :: cs =>
    if c.isDigit then
      let p := takeDigits cs
      (c :: p.1, p.2)
    else ([], c :: cs)

/-- Numeric value of a decimal digit run (most significant first). -/
def natOfDigits (ds : List Char) : Nat :=
  ds.foldl (fun a c => 10 * a + (c.toNat - '0'.toNat)) 0

/-- Outcome of one `scanFileExact(file, 1, "%d\n", &x)` call, as observed by
the caller: a parsed value together with the remaining stream, end of input
(`scanFileExactVA` returns `false`), or a matching failure (which makes
`scanFileExactVA` abort the process). -/
inductive ScanRes where
  | ok (v : Int) (rest : List Char)
  | eof
  | fail
deriving DecidableEq, Repr

/-- Model of one `scanFileExact(file, 1, "%d\n", &x)` call on the unread part
of the input stream (src/util/file.c lines 238-289 with format `"%d\n"`). -/
def scanFileExact (cs : List Char) : ScanRes :=
  match skipWs cs with
  | [] => .eof
  | c :: rest =>
    if c = '-' then
      if (takeDigits rest).1 = [] then (if rest = [] then .eof else .fail)
      else .ok (-(natOfDigits (takeDigits rest).1 : Int)) (skipWs (takeDigits rest).2)
    else if c = '+' then
      if (takeDigits rest).1 = [] then (if rest = [] then .eof else .fail)
      else .ok (natOfDigits (takeDigits rest).1) (skipWs (takeDigits rest).2)
    else
      if (takeDigits (c :: rest)).1 = [] then .fail
      else .ok (natOfDigits (takeDigits (c :: rest)).1) (skipWs (takeDigits (c :: rest)).2)

/-- How a whole parsing run ends: clean end of input, or a matching failure. -/
inductive Term where
  | eof
  | fail
deriving DecidableEq, Repr

/-- Fuelled iteration of `scanFileExact`: the list of integers the reader
thread's `while` loop would parse, together with how the loop ends. -/
def parseIntsF : Nat → List Char → List Int × Term
  | 0, _ => ([], .eof)
  | fuel + 1, cs =>
    match scanFileExact cs with
    | .eof => ([], .eof)
    | .fail => ([], .fail)
    | .ok v rest =>
      let p := parseIntsF fuel rest
      (v :: p.1, p.2)

/-- All integers parsed from a stream by repeated `scanFileExact` calls, with
the terminating outcome.  `cs.length + 1` fuel suffices because every
successful scan consumes at least one character. -/
def parseInts (cs : List Char) : List Int × Term :=
  parseIntsF (cs.length + 1) cs

lemma skipWs_length (cs : List Char) : (skipWs cs).length ≤ cs.length := by
  induction cs with
  | nil => simp [skipWs]
  | cons c cs ih =>
    simp only [skipWs]
    split
    · exact Nat.le_succ_of_le ih
    · simp

lemma takeDigits_append (cs : List Char) :
    (takeDigits cs).1 ++ (takeDigits cs).2 = cs := by
  induction cs with
  | nil => simp [takeDigits]
  | cons c cs ih =>
    simp only [takeDigits]
    split
    · simpa using ih
    · simp

lemma takeDigits_snd_length (cs : List Char) :
    (takeDigits cs).2.length ≤ cs.length := by
  conv_rhs => rw [← takeDigits_append cs]
  simp

lemma takeDigits_snd_lt {cs : List Char} (h : (takeDigits cs).1 ≠ []) :
    (takeDigits cs).2.length < cs.length := by
  conv_rhs => rw [← takeDigits_append cs]
  rcases hd : (takeDigits cs).1 with _ | ⟨d, ds⟩
  · exact absurd hd h
  · simp only [hd, List.length_append, List.length_cons]
    omega

lemma scanFileExact_ok_length {cs : List Char} {v : Int} {rest : List Char}
    (h : scanFileExact cs = .ok v rest) : rest.length < cs.length := by
  unfold scanFileExact at h
  rcases hws : skipWs cs with _ | ⟨c, tail⟩
  · rw [hws] at h; exact absurd h (by simp)
  · rw [hws] at h
    dsimp only at h
    have htail : tail.length + 1 ≤ cs.length := by
      have := skipWs_length cs
      rw [hws] at this
      simpa using this
    by_cases hm : c = '-'
    · rw [if_pos hm] at h
      by_cases hds : (takeDigits tail).1 = []
      · rw [if_pos hds] at h
        split at h <;> exact absurd h (by simp)
      · rw [if_neg hds] at h
        obtain ⟨-, hrest⟩ := ScanRes.ok.inj h
        calc rest.length ≤ (takeDigits tail).2.length := by
              rw [← hrest]; exact skipWs_length _
          _ < tail.length := takeDigits_snd_lt hds
          _ < cs.length := htail
    · by_cases hp : c = '+'
      · rw [if_neg hm, if_pos hp] at h
        by_cases hds : (takeDigits tail).1 = []
        · rw [if_pos hds] at h
          split at h <;> exact absurd h (by simp)
        · rw [if_neg hds] at h
          obtain ⟨-, hrest⟩ := ScanRes.ok.inj h
          calc rest.length ≤ (takeDigits tail).2.length := by
                rw [← hrest]; exact skipWs_length _
            _ < tail.length := takeDigits_snd_lt hds
            _ < cs.length := htail
      · rw [if_neg hm, if_neg hp] at h
        by_cases hds : (takeDigits (c :: tail)).1 = []
        · rw [if_pos hds] at h
          exact absurd h (by simp)
        · rw [if_neg hds] at h
          obtain ⟨-, hrest⟩ := ScanRes.ok.inj h
          calc rest.length ≤ (takeDigits (c :: tail)).2.length := by
                rw [← hrest]; exact skipWs_length _
            _ < (c :: tail).length := takeDigits_snd_lt hds
            _ ≤ cs.length := htail

lemma parseIntsF_stable : ∀ (n : Nat) (cs : List Char), cs.length < n →
    parseIntsF n cs = parseIntsF (cs.length + 1) cs := by
  intro n
  induction n using Nat.strong_induction_on with
  | _ n ih =>
    intro cs hlt
    match n, hlt with
    | n + 1, hlt =>
      rcases hs : scanFileExact cs with ⟨v, rest⟩ | - | -
      · have hr := scanFileExact_ok_length hs
        have h1 : parseIntsF n rest = parseIntsF (rest.length + 1) rest :=
          ih n (Nat.lt_succ_self n) rest (by omega)
        have h2 : parseIntsF cs.length rest = parseIntsF (rest.length + 1) rest :=
          ih cs.length hlt rest hr
        simp only [parseIntsF, hs, h1, h2]
      · simp only [parseIntsF, hs]
      · simp only [parseIntsF, hs]

lemma parseInts_ok {cs : List Char} {v : Int} {rest : List Char}
    (h : scanFileExact cs = .ok v rest) :
    parseInts cs = (v :: (parseInts rest).1, (parseInts rest).2) := by
  have hr := scanFileExact_ok_length h
  have : parseIntsF cs.length rest = parseIntsF (rest.length + 1) rest :=
    parseIntsF_stable cs.length rest hr
  simp only [parseInts, parseIntsF, h, this]

lemma parseInts_eof {cs : List Char} (h : scanFileExact cs = .eof) :
    parseInts cs = ([], .eof) := by
  simp only [parseInts, parseIntsF, h]

lemma parseInts_fail {cs : List Char} (h : scanFileExact cs = .fail) :
    parseInts cs = ([], .fail) := by
  simp only [parseInts, parseIntsF, h]

/-! ## The writer's transform (src/hw4.c lines 133-140) -/

/-- C's `%` operator is remainder of truncated division, which is `Int.tmod`
(`(-3) % 2 == -1`, `(-4) % 2 == 0` in C).  `cRem v 2` models the test
`readInteger % 2` at src/hw4.c line 134. -/
def cRem (a b : Int) : Int := Int.tmod a b

/-- The lines `writeIntegersThreadStart` prints for one received integer
(src/hw4.c lines 133-140): the value twice when `readInteger % 2 == 0`, once
otherwise.  Each element stands for one `%d\n` line of output. -/
def writeIntegerLines (v : Int) : List Int :=
  if cRem v 2 = 0 then [v, v] else [v]

/-! ## The two threads and the orchestrator as a transition system

Each step below is one mutex-protected region of the C code (or one action
that touches no shared state).  `pthread_cond_wait` releases the mutex, so it
ends a region; being woken and reacquiring the mutex starts the next one.
`pthread_cond_signal` wakes the other thread only if it is currently blocked
in `pthread_cond_wait` on that condition variable — a signal sent while nobody
waits is lost (POSIX condition variables store no state). -/

/-- The three threads of the process: the `hw4` caller (orchestrator) and the
two worker threads it creates. -/
inductive Tid where
  | main
  | reader
  | writer
deriving DecidableEq, Repr

/-- Control locations of `readIntegersThreadStart` (src/hw4.c lines 100-118).

* `rIdle`: not yet created by `hw4`.
* `rOpen`: about to `safeFopen` the input file (line 104).
* `rLock`: about to acquire `syncMutex` (line 106).
* `rScan`: holding `syncMutex`, about to call `scanFileExact` (line 107); on
  success it signals `integerReadCondition` and waits on
  `integerWroteCondition` (lines 108-109); at end of input it sets
  `finished`, signals `integerReadCondition` and unlocks (lines 111-113); on
  a matching failure `scanFileExactVA` aborts the process.
* `rWait`: blocked in `pthread_cond_wait` on `integerWroteCondition`.
* `rRelock`: woken, waiting to reacquire `syncMutex` before returning to the
  loop condition.
* `rClose`: about to `fclose` the input file (line 115).
* `rDone`: returned.
* `rAbort`: the process was aborted from `scanFileExactVA`. -/
inductive RPc where
  | rIdle
  | rOpen
  | rLock
  | rScan
  | rWait
  | rRelock
  | rClose
  | rDone
  | rAbort
deriving DecidableEq, Repr

/-- Control locations of `writeIntegersThreadStart` (src/hw4.c lines 120-147).

* `wIdle`: not yet created by `hw4`.
* `wLock`: about to acquire `syncMutex` (line 124) and immediately wait on
  `integerReadCondition` (line 126), which releases the mutex.
* `wWait`: blocked in `pthread_cond_wait` on `integerReadCondition`.
* `wRelock`: woken, waiting to reacquire `syncMutex`; once reacquired it
  checks `finished` (line 128) and either breaks and unlocks (lines 130,
  144) or proceeds to print.
* `wWrite`: holding `syncMutex`, about to `safeFprintf` the slot value once
  or twice (lines 133-140), signal `integerWroteCondition` (line 142) and
  wait again on `integerReadCondition` (line 126).
* `wDone`: returned. -/
inductive WPc where
  | wIdle
  | wLock
  | wWait
  | wRelock
  | wWrite
  | wDone
deriving DecidableEq, Repr

/-- Control locations of `hw4` itself (src/hw4.c lines 45-98).

* `m0`: about to `safeFopen` the output file (line 49).
* `m1`: about to create the two threads (lines 61-88).
* `m2`: blocked in `safePthreadJoin` on the reader thread (line 90).
* `m3`: blocked in `safePthreadJoin` on the writer thread (line 91).
* `m4`: about to destroy the synchronization objects and `fclose` the output
  file (lines 93-97).
* `mDone`: returned. -/
inductive MPc where
  | m0
  | m1
  | m2
  | m3
  | m4
  | mDone
deriving DecidableEq, Repr

/-- The whole process state: the three program counters, the mutex owner, the
shared variables `readInteger` (`slot`) and `finished`, the unread input
stream, and observables — the output lines written so far, the parsed and
consumer-observed value sequences, which thread opened/closed each file, and
the abort diagnostics.  `finishWrites` counts executions of the
`*finishedPtr = true` assignment (line 111). -/
structure Hw4State where
  mpc : MPc
  rpc : RPc
  wpc : WPc
  mutex : Option Tid
  input : List Char
  slot : Int
  finished : Bool
  aborted : Bool
  diagPrinted : Bool
  exitCode : Option Int
  inOpen : Bool
  outOpen : Bool
  inOpenedBy : Option Tid
  inClosedBy : Option Tid
  outOpenedBy : Option Tid
  outClosedBy : Option Tid
  parsed : List Int
  observed : List Int
  output : List Int
  finishWrites : Nat
deriving DecidableEq, Repr

/-- Effect of `pthread_cond_signal(integerReadConditionPtr)`: wakes the
writer only if it is blocked waiting on that condition. -/
def sigRead (w : WPc) : WPc :=
  if w = .wWait then .wRelock else w

/-- Effect of `pthread_cond_signal(integerWroteConditionPtr)`: wakes the
reader only if it is blocked waiting on that condition. -/
def sigWrote (r : RPc) : RPc :=
  if r = .rWait then .rRelock else r

/-- One atomic step of `readIntegersThreadStart`, when enabled.  `none` means
the thread cannot move (blocked, not yet created, finished, or the process
was aborted).  The `rScan` step performs the `scanFileExact` call of line 107
while holding `syncMutex`; on a matching failure `scanFileExactVA` prints a
diagnostic to stderr and terminates the whole process with a non-zero exit
status.  The abort behavior is modelled from the spec: `abortWithErrorFmt`
(util/error.c) is not in the sources, and the spec says a fatal error prints
the diagnostic to standard error and exits non-zero. -/
def stepR (s : Hw4State) : Option Hw4State :=
  if s.aborted then none else
  match s.rpc with
  | .rIdle => none
  | .rOpen => some { s with inOpen := true, inOpenedBy := some .reader, rpc := .rLock }
  | .rLock =>
    if s.mutex = none then some { s with mutex := some .reader, rpc := .rScan } else none
  | .rScan =>
    match scanFileExact s.input with
    | .ok v rest =>
      some { s with input := rest, slot := v, parsed := s.parsed ++ [v],
                    wpc := sigRead s.wpc, mutex := none, rpc := .rWait }
    | .eof =>
      some { s with finished := true, finishWrites := s.finishWrites + 1,
                    wpc := sigRead s.wpc, mutex := none, rpc := .rClose }
    | .fail =>
      some { s with aborted := true, diagPrinted := true, exitCode := some 1,
                    rpc := .rAbort }
  | .rWait => none
  | .rRelock =>
    if s.mutex = none then some { s with mutex := some .reader, rpc := .rScan } else none
  | .rClose => some { s with inOpen := false, inClosedBy := some .reader, rpc := .rDone }
  | .rDone => none
  | .rAbort => none

/-- One atomic step of `writeIntegersThreadStart`, when enabled.  The
`wWrite` step performs the `safeFprintf` of lines 133-140 while holding
`syncMutex`. -/
def stepW (s : Hw4State) : Option Hw4State :=
  if s.aborted then none else
  match s.wpc with
  | .wIdle => none
  | .wLock =>
    if s.mutex = none then some { s with wpc := .wWait } else none
  | .wWait => none
  | .wRelock =>
    if s.mutex = none then
      if s.finished then some { s with wpc := .wDone }
      else some { s with mutex := some .writer, wpc := .wWrite }
    else none
  | .wWrite =>
    some { s with output := s.output ++ writeIntegerLines s.slot,
                  observed := s.observed ++ [s.slot],
                  rpc := sigWrote s.rpc, mutex := none, wpc := .wWait }
  | .wDone => none

/-- One atomic step of the `hw4` orchestrator, when enabled.  The joins of
lines 90-91 block until the corresponding thread has returned. -/
def stepM (s : Hw4State) : Option Hw4State :=
  if s.aborted then none else
  match s.mpc with
  | .m0 => some { s with outOpen := true, outOpenedBy := some .main, mpc := .m1 }
  | .m1 => some { s with rpc := .rOpen, wpc := .wLock, mpc := .m2 }
  | .m2 => if s.rpc = .rDone then some { s with mpc := .m3 } else none
  | .m3 => if s.wpc = .wDone then some { s with mpc := .m4 } else none
  | .m4 => some { s with outOpen := false, outClosedBy := some .main, mpc := .mDone }
  | .mDone => none

/-- Dispatch a step to one of the three threads. -/
def stepOf : Tid → Hw4State → Option Hw4State
  | .main => stepM
  | .reader => stepR
  | .writer => stepW

/-- The state of the process at the entry of `hw4`, with input stream `cs`.
`slot0` is the arbitrary initial (uninitialized in C) value of
`readInteger`. -/
def hw4Init (cs : List Char) (slot0 : Int) : Hw4State where
  mpc := .m0
  rpc := .rIdle
  wpc := .wIdle
  mutex := none
  input := cs
  slot := slot0
  finished := false
  aborted := false
  diagPrinted := false
  exitCode := none
  inOpen := false
  outOpen := false
  inOpenedBy := none
  inClosedBy := none
  outOpenedBy := none
  outClosedBy := none
  parsed := []
  observed := []
  output := []
  finishWrites := 0

/-- Interleaving semantics: some thread takes one enabled step. -/
def StepAny (s s' : Hw4State) : Prop :=
  ∃ t, stepOf t s = some s'

/-- A state is reachable from another by some finite interleaving. -/
def Reach (s s' : Hw4State) : Prop :=
  Relation.ReflTransGen StepAny s s'

/-- Run a concrete schedule (a list of thread choices); a choice whose thread
has no enabled step is skipped. -/
def runSched (sched : List Tid) (s : Hw4State) : Hw4State :=
  sched.foldl (fun s t => (stepOf t s).getD s) s

lemma reach_step {s s' : Hw4State} (t : Tid) (h : stepOf t s = some s') :
    Reach s s' :=
  Relation.ReflTransGen.single ⟨t, h⟩

lemma reach_runSched (sched : List Tid) (s : Hw4State) :
    Reach s (runSched sched s) := by
  induction sched generalizing s with
  | nil => exact Relation.ReflTransGen.refl
  | cons t sched ih =>
    simp only [runSched, List.foldl_cons]
    rcases h : stepOf t s with - | s'
    · simpa [h, runSched] using ih s
    · exact Relation.ReflTransGen.trans (reach_step t h)
        (by simpa [h, runSched] using ih s')

/-! ## The global invariant

`okPair` lists exactly which pairs of thread control locations can occur
together in a reachable state; the remaining components of a reachable state
are functions of the control locations, as recorded by `Inv`. -/

/-- Which thread holds `syncMutex`, as a function of the two control
locations: the reader at (or aborted from) its scan region, or the writer at
its print region. -/
def mutexOf (r : RPc) (w : WPc) : Option Tid :=
  if r = .rScan ∨ r = .rAbort then some .reader
  else if w = .wWrite then some .writer
  else none

/-- The simultaneously-possible pairs of reader/writer control locations. -/
def okPair : RPc → WPc → Bool
  | .rIdle, .wIdle => true
  | .rOpen, .wLock => true
  | .rOpen, .wWait => true
  | .rLock, .wLock => true
  | .rLock, .wWait => true
  | .rScan, .wLock => true
  | .rScan, .wWait => true
  | .rWait, .wLock => true
  | .rWait, .wWait => true
  | .rWait, .wRelock => true
  | .rWait, .wWrite => true
  | .rRelock, .wWait => true
  | .rClose, .wLock => true
  | .rClose, .wWait => true
  | .rClose, .wRelock => true
  | .rClose, .wDone => true
  | .rDone, .wLock => true
  | .rDone, .wWait => true
  | .rDone, .wRelock => true
  | .rDone, .wDone => true
  | .rAbort, .wLock => true
  | .rAbort, .wWait => true
  | _, _ => false

/-- The inductive invariant of the transition system, for a run started on
input stream `cs`.  It ties every state component to the control locations:
mutex ownership, the `finished` and abort flags, the not-yet-created /
joined gating by the orchestrator, the strict-alternation ghost relation
between `parsed`, `observed` and the slot, the output written so far, the
relation of the unread input to the original stream, and file ownership. -/
structure Inv (cs : List Char) (s : Hw4State) : Prop where
  ok : okPair s.rpc s.wpc = true
  mux : s.mutex = mutexOf s.rpc s.wpc
  fin : s.finished = true ↔ (s.rpc = .rClose ∨ s.rpc = .rDone)
  abt : s.aborted = true ↔ s.rpc = .rAbort
  spawned : (s.mpc = .m0 ∨ s.mpc = .m1) ↔ s.rpc = .rIdle
  idle : s.rpc = .rIdle ↔ s.wpc = .wIdle
  joinR : s.mpc = .m3 → s.rpc = .rDone
  joinW : (s.mpc = .m4 ∨ s.mpc = .mDone) → s.rpc = .rDone ∧ s.wpc = .wDone
  sync : if s.rpc = .rWait then s.parsed = s.observed ++ [s.slot]
         else s.observed = s.parsed
  outEq : s.output = s.observed.flatMap writeIntegerLines
  parse : parseInts cs = (s.parsed ++ (parseInts s.input).1, (parseInts s.input).2)
  finEof : s.finished = true → scanFileExact s.input = .eof
  abFail : s.aborted = true → scanFileExact s.input = .fail
  fw : s.finishWrites = if s.finished = true then 1 else 0
  inOB : s.inOpenedBy = if s.rpc = .rIdle ∨ s.rpc = .rOpen then none else some .reader
  inCB : s.inClosedBy = if s.rpc = .rDone then some Tid.reader else none
  inO : s.inOpen = true ↔ ¬(s.rpc = .rIdle ∨ s.rpc = .rOpen ∨ s.rpc = .rDone)
  outOB : s.outOpenedBy = if s.mpc = .m0 then none else some .main
  outCB : s.outClosedBy = if s.mpc = .mDone then some Tid.main else none
  outO : s.outOpen = true ↔ (s.mpc ≠ .m0 ∧ s.mpc ≠ .mDone)
  exitC : s.exitCode = if s.aborted = true then some 1 else none
  diagEq : s.diagPrinted = s.aborted

lemma inv_init (cs : List Char) (slot0 : Int) : Inv cs (hw4Init cs slot0) := by
  constructor <;> simp [hw4Init, okPair, mutexOf]

lemma inv_stepM {cs : List Char} {s s' : Hw4State} (h : Inv cs s)
    (hs : stepM s = some s') : Inv cs s' := by
  obtain ⟨ok, mux, fin, abt, spawned, idle, joinR, joinW, sync, outEq, parse,
    finEof, abFail, fw, inOB, inCB, inO, outOB, outCB, outO, exitC, diagEq⟩ := h
  unfold stepM at hs
  by_cases hab : s.aborted = true
  · rw [if_pos hab] at hs
    exact absurd hs (by simp)
  · rw [if_neg hab] at hs
    cases hm : s.mpc <;> rw [hm] at hs <;> dsimp only at hs
    · simp only [Option.some.injEq] at hs
      subst hs
      constructor <;> simp_all [mutexOf, okPair]
    · simp only [Option.some.injEq] at hs
      subst hs
      constructor <;> simp_all [mutexOf, okPair]
    · by_cases hr : s.rpc = .rDone
      · rw [if_pos hr] at hs
        simp only [Option.some.injEq] at hs
        subst hs
        constructor <;> simp_all [mutexOf, okPair]
      · rw [if_neg hr] at hs
        exact absurd hs (by simp)
    · by_cases hw : s.wpc = .wDone
      · rw [if_pos hw] at hs
        simp only [Option.some.injEq] at hs
        subst hs
        constructor <;> simp_all [mutexOf, okPair]
      · rw [if_neg hw] at hs
        exact absurd hs (by simp)
    · simp only [Option.some.injEq] at hs
      subst hs
      constructor <;> simp_all [mutexOf, okPair]
    · exact absurd hs (by simp)

lemma mutexOf_congr_w {r : RPc} {w w' : WPc} (h : ¬w = .wWrite) (h' : ¬w' = .wWrite) :
    mutexOf r w = mutexOf r w' := by
  unfold mutexOf
  by_cases hr : r = .rScan ∨ r = .rAbort
  · rw [if_pos hr, if_pos hr]
  · rw [if_neg hr, if_neg hr, if_neg h, if_neg h']

lemma mutexOf_congr_r {r r' : RPc} {w : WPc} (h : ¬(r = .rScan ∨ r = .rAbort))
    (h' : ¬(r' = .rScan ∨ r' = .rAbort)) : mutexOf r w = mutexOf r' w := by
  unfold mutexOf
  rw [if_neg h, if_neg h']

lemma inv_stepW {cs : List Char} {s s' : Hw4State} (h : Inv cs s)
    (hs : stepW s = some s') : Inv cs s' := by
  obtain ⟨ok, mux, fin, abt, spawned, idle, joinR, joinW, sync, outEq, parse,
    finEof, abFail, fw, inOB, inCB, inO, outOB, outCB, outO, exitC, diagEq⟩ := h
  unfold stepW at hs
  by_cases hab : s.aborted = true
  · rw [if_pos hab] at hs
    exact absurd hs (by simp)
  · rw [if_neg hab] at hs
    cases hw : s.wpc <;> rw [hw] at hs <;> dsimp only at hs
    · exact absurd hs (by simp)
    · -- wLock: acquire the mutex, immediately wait on integerReadCondition
      by_cases hmu : s.mutex = none
      · rw [if_pos hmu] at hs
        simp only [Option.some.injEq] at hs
        subst hs
        refine ⟨?_, ?_, fin, abt, spawned, ?_, joinR, ?_, sync, outEq, parse,
          finEof, abFail, fw, inOB, inCB, inO, outOB, outCB, outO, exitC, diagEq⟩
        · rw [hw] at ok
          revert ok
          cases s.rpc <;> simp [okPair]
        · show s.mutex = mutexOf s.rpc .wWait
          rw [hw] at mux
          rw [mux]
          exact mutexOf_congr_w (by simp) (by simp)
        · rw [hw] at idle
          simp [idle]
        · intro hm
          have h2 := (joinW hm).2
          rw [hw] at h2
          exact absurd h2 (by simp)
      · rw [if_neg hmu] at hs
        exact absurd hs (by simp)
    · exact absurd hs (by simp)
    · -- wRelock: reacquire the mutex, test finished
      by_cases hmu : s.mutex = none
      · rw [if_pos hmu] at hs
        by_cases hf : s.finished = true
        · -- finished: break out of the loop and unlock
          rw [if_pos hf] at hs
          simp only [Option.some.injEq] at hs
          subst hs
          have hcd : s.rpc = .rClose ∨ s.rpc = .rDone := fin.mp hf
          refine ⟨?_, ?_, ?_, abt, spawned, ?_, joinR, ?_, sync, outEq, parse,
            finEof, abFail, fw, inOB, inCB, inO, outOB, outCB, outO, exitC, diagEq⟩
          · rcases hcd with hr | hr <;> rw [hr] <;> simp [okPair]
          · show s.mutex = mutexOf s.rpc .wDone
            rw [hw] at mux
            rw [mux]
            exact mutexOf_congr_w (by simp) (by simp)
          · simpa using fin
          · rw [hw] at idle
            simp [idle]
          · intro hm
            exact ⟨(joinW hm).1, rfl⟩
        · -- not finished: proceed to the fprintf region, holding the mutex
          rw [if_neg hf] at hs
          simp only [Option.some.injEq] at hs
          subst hs
          have hrw : s.rpc = .rWait := by
            have hnc : ¬(s.rpc = .rClose ∨ s.rpc = .rDone) := fun hc => hf (fin.mpr hc)
            rw [hw] at ok
            rcases hh : s.rpc <;> rw [hh] at ok hnc <;> simp [okPair] at ok hnc ⊢
          refine ⟨?_, ?_, fin, abt, spawned, ?_, joinR, ?_, sync, outEq, parse,
            finEof, abFail, fw, inOB, inCB, inO, outOB, outCB, outO, exitC, diagEq⟩
          · rw [hrw]
            simp [okPair]
          · show some Tid.writer = mutexOf s.rpc .wWrite
            rw [hrw]
            rfl
          · rw [hrw]
            simp
          · intro hm
            have h2 := (joinW hm).2
            rw [hw] at h2
            exact absurd h2 (by simp)
      · rw [if_neg hmu] at hs
        exact absurd hs (by simp)
    · -- wWrite: print the slot value, signal integerWroteCondition, wait again
      simp only [Option.some.injEq] at hs
      subst hs
      have hrw : s.rpc = .rWait := by
        rw [hw] at ok
        rcases hh : s.rpc <;> rw [hh] at ok <;> first | rfl | exact absurd ok (by decide)
      have hsig : sigWrote s.rpc = .rRelock := by
        rw [hrw]
        rfl
      have hnf : ¬s.finished = true := by
        intro hh
        rcases fin.mp hh with hr | hr <;> rw [hr] at hrw <;> exact absurd hrw (by decide)
      have hna : ¬s.aborted = true := hab
      refine ⟨?_, ?_, ?_, ?_, ?_, ?_, ?_, ?_, ?_, ?_, parse, ?_, ?_, fw,
        ?_, ?_, ?_, outOB, outCB, outO, exitC, diagEq⟩
      · rw [hsig]
        simp [okPair]
      · show (none : Option Tid) = mutexOf (sigWrote s.rpc) .wWait
        rw [hsig]
        rfl
      · rw [hsig]
        simp [hnf]
      · rw [hsig]
        simp [hna]
      · rw [hsig]
        rw [hrw] at spawned
        simpa using spawned
      · rw [hsig]
        simp
      · intro hm
        have h1 := joinR hm
        rw [hrw] at h1
        exact absurd h1 (by decide)
      · intro hm
        have h2 := (joinW hm).2
        rw [hw] at h2
        exact absurd h2 (by simp)
      · rw [hsig]
        rw [hrw] at sync
        simp only [if_pos rfl] at sync
        simpa using sync.symm
      · show s.output ++ writeIntegerLines s.slot
            = (s.observed ++ [s.slot]).flatMap writeIntegerLines
        rw [outEq]
        simp
      · intro hh
        exact absurd hh hnf
      · intro hh
        exact absurd hh hna
      · rw [hsig]
        rw [hrw] at inOB
        simpa using inOB
      · rw [hsig]
        rw [hrw] at inCB
        simpa using inCB
      · rw [hsig]
        rw [hrw] at inO
        simpa using inO
    · exact absurd hs (by simp)

lemma inv_stepR {cs : List Char} {s s' : Hw4State} (h : Inv cs s)
    (hs : stepR s = some s') : Inv cs s' := by
  obtain ⟨ok, mux, fin, abt, spawned, idle, joinR, joinW, sync, outEq, parse,
    finEof, abFail, fw, inOB, inCB, inO, outOB, outCB, outO, exitC, diagEq⟩ := h
  unfold stepR at hs
  by_cases hab : s.aborted = true
  · rw [if_pos hab] at hs
    exact absurd hs (by simp)
  · rw [if_neg hab] at hs
    cases hrp : s.rpc <;> rw [hrp] at hs <;> dsimp only at hs
    · exact absurd hs (by simp)
    · -- rOpen: fopen the input file
      simp only [Option.some.injEq] at hs
      subst hs
      have hnf : ¬s.finished = true := by
        intro hh
        rcases fin.mp hh with h1 | h1 <;> rw [hrp] at h1 <;> exact absurd h1 (by decide)
      refine ⟨?_, ?_, ?_, ?_, ?_, ?_, ?_, ?_, ?_, outEq, parse,
        ?_, ?_, fw, ?_, ?_, ?_, outOB, outCB, outO, exitC, diagEq⟩
      · rw [hrp] at ok
        revert ok
        cases s.wpc <;> simp [okPair]
      · show s.mutex = mutexOf .rLock s.wpc
        rw [mux, hrp]
        exact mutexOf_congr_r (by decide) (by decide)
      · simp [hnf]
      · simp [hab]
      · rw [hrp] at spawned
        simp only [reduceCtorEq, iff_false] at spawned
        simp [spawned]
      · rw [hrp] at idle
        simp only [reduceCtorEq, false_iff] at idle
        simp [idle]
      · intro hm
        have h1 := joinR hm
        rw [hrp] at h1
        exact absurd h1 (by decide)
      · intro hm
        have h1 := (joinW hm).1
        rw [hrp] at h1
        exact absurd h1 (by decide)
      · rw [hrp] at sync
        simpa using sync
      · intro hh
        exact absurd hh hnf
      · intro hh
        exact absurd hh hab
      · simp
      · rw [hrp] at inCB
        simpa using inCB
      · simp
    · -- rLock: acquire syncMutex, enter the loop condition
      by_cases hmu : s.mutex = none
      · rw [if_pos hmu] at hs
        simp only [Option.some.injEq] at hs
        subst hs
        have hnf : ¬s.finished = true := by
          intro hh
          rcases fin.mp hh with h1 | h1 <;> rw [hrp] at h1 <;> exact absurd h1 (by decide)
        refine ⟨?_, ?_, ?_, ?_, ?_, ?_, ?_, ?_, ?_, outEq, parse,
          ?_, ?_, fw, ?_, ?_, ?_, outOB, outCB, outO, exitC, diagEq⟩
        · rw [hrp] at ok
          revert ok
          cases s.wpc <;> simp [okPair]
        · show some Tid.reader = mutexOf .rScan s.wpc
          unfold mutexOf
          rw [if_pos (by left; rfl)]
        · simp [hnf]
        · simp [hab]
        · rw [hrp] at spawned
          simp only [reduceCtorEq, iff_false] at spawned
          simp [spawned]
        · rw [hrp] at idle
          simp only [reduceCtorEq, false_iff] at idle
          simp [idle]
        · intro hm
          have h1 := joinR hm
          rw [hrp] at h1
          exact absurd h1 (by decide)
        · intro hm
          have h1 := (joinW hm).1
          rw [hrp] at h1
          exact absurd h1 (by decide)
        · rw [hrp] at sync
          simpa using sync
        · intro hh
          exact absurd hh hnf
        · intro hh
          exact absurd hh hab
        · rw [hrp] at inOB
          simpa using inOB
        · rw [hrp] at inCB
          simpa using inCB
        · rw [hrp] at inO
          simpa using inO
      · rw [if_neg hmu] at hs
        exact absurd hs (by simp)
    · -- rScan: scanFileExact while holding syncMutex
      have hnf : ¬s.finished = true := by
        intro hh
        rcases fin.mp hh with h1 | h1 <;> rw [hrp] at h1 <;> exact absurd h1 (by decide)
      have hwp : s.wpc = .wLock ∨ s.wpc = .wWait := by
        rw [hrp] at ok
        rcases hh : s.wpc <;> rw [hh] at ok <;>
          first
          | exact Or.inl rfl
          | exact Or.inr rfl
          | exact absurd ok (by decide)
      rcases hscan : scanFileExact s.input with ⟨v, rest⟩ | - | - <;>
        rw [hscan] at hs <;> dsimp only at hs
      · -- a value was parsed: publish it, signal, wait on integerWroteCondition
        simp only [Option.some.injEq] at hs
        subst hs
        refine ⟨?_, ?_, ?_, ?_, ?_, ?_, ?_, ?_, ?_, outEq, ?_,
          ?_, ?_, fw, ?_, ?_, ?_, outOB, outCB, outO, exitC, diagEq⟩
        · rcases hwp with hw1 | hw1 <;> simp [hw1, sigRead, okPair]
        · show (none : Option Tid) = mutexOf .rWait (sigRead s.wpc)
          rcases hwp with hw1 | hw1 <;> rw [hw1] <;> rfl
        · simp [hnf]
        · simp [hab]
        · rw [hrp] at spawned
          simp only [reduceCtorEq, iff_false] at spawned
          simp [spawned]
        · rcases hwp with hw1 | hw1 <;> simp [hw1, sigRead]
        · intro hm
          have h1 := joinR hm
          rw [hrp] at h1
          exact absurd h1 (by decide)
        · intro hm
          have h1 := (joinW hm).1
          rw [hrp] at h1
          exact absurd h1 (by decide)
        · rw [hrp] at sync
          simp only [reduceCtorEq, if_false] at sync
          simp [sync]
        · rw [parseInts_ok hscan] at parse
          simpa [List.append_assoc] using parse
        · intro hh
          exact absurd hh hnf
        · intro hh
          exact absurd hh hab
        · rw [hrp] at inOB
          simpa using inOB
        · rw [hrp] at inCB
          simpa using inCB
        · rw [hrp] at inO
          simpa using inO
      · -- end of input: set finished, signal, unlock
        simp only [Option.some.injEq] at hs
        subst hs
        refine ⟨?_, ?_, ?_, ?_, ?_, ?_, ?_, ?_, ?_, outEq, parse,
          ?_, ?_, ?_, ?_, ?_, ?_, outOB, outCB, outO, exitC, diagEq⟩
        · rcases hwp with hw1 | hw1 <;> simp [hw1, sigRead, okPair]
        · show (none : Option Tid) = mutexOf .rClose (sigRead s.wpc)
          rcases hwp with hw1 | hw1 <;> rw [hw1] <;> rfl
        · simp
        · simp [hab]
        · rw [hrp] at spawned
          simp only [reduceCtorEq, iff_false] at spawned
          simp [spawned]
        · rcases hwp with hw1 | hw1 <;> simp [hw1, sigRead]
        · intro hm
          have h1 := joinR hm
          rw [hrp] at h1
          exact absurd h1 (by decide)
        · intro hm
          have h1 := (joinW hm).1
          rw [hrp] at h1
          exact absurd h1 (by decide)
        · rw [hrp] at sync
          simpa using sync
        · intro _
          exact hscan
        · intro hh
          exact absurd hh hab
        · have h0 : s.finishWrites = 0 := by
            rw [fw, if_neg hnf]
          simp [h0]
        · rw [hrp] at inOB
          simpa using inOB
        · rw [hrp] at inCB
          simpa using inCB
        · rw [hrp] at inO
          simpa using inO
      · -- matching failure: scanFileExactVA aborts the process
        simp only [Option.some.injEq] at hs
        subst hs
        refine ⟨?_, ?_, ?_, ?_, ?_, ?_, ?_, ?_, ?_, outEq, parse,
          ?_, ?_, fw, ?_, ?_, ?_, outOB, outCB, outO, ?_, ?_⟩
        · rcases hwp with hw1 | hw1 <;> simp [hw1, okPair]
        · show s.mutex = mutexOf .rAbort s.wpc
          rw [mux, hrp]
          unfold mutexOf
          rw [if_pos (by left; rfl), if_pos (by right; rfl)]
        · simp [hnf]
        · simp
        · rw [hrp] at spawned
          simp only [reduceCtorEq, iff_false] at spawned
          simp [spawned]
        · rw [hrp] at idle
          simp only [reduceCtorEq, false_iff] at idle
          simp [idle]
        · intro hm
          have h1 := joinR hm
          rw [hrp] at h1
          exact absurd h1 (by decide)
        · intro hm
          have h1 := (joinW hm).1
          rw [hrp] at h1
          exact absurd h1 (by decide)
        · rw [hrp] at sync
          simpa using sync
        · intro hh
          exact absurd hh hnf
        · intro _
          exact hscan
        · rw [hrp] at inOB
          simpa using inOB
        · rw [hrp] at inCB
          simpa using inCB
        · rw [hrp] at inO
          simpa using inO
        · simp
        · simp
    · exact absurd hs (by simp)
    · -- rRelock: reacquire syncMutex after being woken, back to the loop condition
      by_cases hmu : s.mutex = none
      · rw [if_pos hmu] at hs
        simp only [Option.some.injEq] at hs
        subst hs
        have hnf : ¬s.finished = true := by
          intro hh
          rcases fin.mp hh with h1 | h1 <;> rw [hrp] at h1 <;> exact absurd h1 (by decide)
        refine ⟨?_, ?_, ?_, ?_, ?_, ?_, ?_, ?_, ?_, outEq, parse,
          ?_, ?_, fw, ?_, ?_, ?_, outOB, outCB, outO, exitC, diagEq⟩
        · rw [hrp] at ok
          revert ok
          cases s.wpc <;> simp [okPair]
        · show some Tid.reader = mutexOf .rScan s.wpc
          unfold mutexOf
          rw [if_pos (by left; rfl)]
        · simp [hnf]
        · simp [hab]
        · rw [hrp] at spawned
          simp only [reduceCtorEq, iff_false] at spawned
          simp [spawned]
        · rw [hrp] at idle
          simp only [reduceCtorEq, false_iff] at idle
          simp [idle]
        · intro hm
          have h1 := joinR hm
          rw [hrp] at h1
          exact absurd h1 (by decide)
        · intro hm
          have h1 := (joinW hm).1
          rw [hrp] at h1
          exact absurd h1 (by decide)
        · rw [hrp] at sync
          simpa using sync
        · intro hh
          exact absurd hh hnf
        · intro hh
          exact absurd hh hab
        · rw [hrp] at inOB
          simpa using inOB
        · rw [hrp] at inCB
          simpa using inCB
        · rw [hrp] at inO
          simpa using inO
      · rw [if_neg hmu] at hs
        exact absurd hs (by simp)
    · -- rClose: fclose the input file, return
      simp only [Option.some.injEq] at hs
      subst hs
      have hf : s.finished = true := fin.mpr (by left; exact hrp)
      refine ⟨?_, ?_, ?_, ?_, ?_, ?_, ?_, ?_, ?_, outEq, parse,
        finEof, ?_, fw, ?_, ?_, ?_, outOB, outCB, outO, exitC, diagEq⟩
      · rw [hrp] at ok
        revert ok
        cases s.wpc <;> simp [okPair]
      · show s.mutex = mutexOf .rDone s.wpc
        rw [mux, hrp]
        exact mutexOf_congr_r (by decide) (by decide)
      · simp [hf]
      · simp [hab]
      · rw [hrp] at spawned
        simp only [reduceCtorEq, iff_false] at spawned
        simp [spawned]
      · rw [hrp] at idle
        simp only [reduceCtorEq, false_iff] at idle
        simp [idle]
      · intro _
        rfl
      · intro hm
        exact ⟨rfl, (joinW hm).2⟩
      · rw [hrp] at sync
        simpa using sync
      · intro hh
        exact absurd hh hab
      · rw [hrp] at inOB
        simpa using inOB
      · simp
      · simp
    · exact absurd hs (by simp)
    · exact absurd hs (by simp)

lemma inv_stepAny {cs : List Char} {s s' : Hw4State} (h : Inv cs s)
    (hst : StepAny s s') : Inv cs s' := by
  obtain ⟨t, ht⟩ := hst
  cases t
  · exact inv_stepM h ht
  · exact inv_stepR h ht
  · exact inv_stepW h ht

/-- Every state reachable from the entry of `hw4` satisfies the invariant. -/
lemma reach_inv {cs : List Char} {slot0 : Int} {s : Hw4State}
    (h : Reach (hw4Init cs slot0) s) : Inv cs s := by
  induction h with
  | refl => exact inv_init cs slot0
  | tail _ hstep ih => exact inv_stepAny ih hstep

/-! ## Consequences of the invariant -/

/-- In a completed run (`hw4` has returned), the whole input was parsed with a
clean end of stream, the consumer observed exactly the parsed sequence, and
the output is the concatenated transform of the parsed sequence. -/
lemma final_state {cs : List Char} {s : Hw4State} (h : Inv cs s)
    (hdone : s.mpc = .mDone) :
    s.parsed = (parseInts cs).1 ∧ (parseInts cs).2 = .eof
    ∧ s.observed = s.parsed
    ∧ s.output = (parseInts cs).1.flatMap writeIntegerLines := by
  obtain ⟨hrd, hwd⟩ := h.joinW (Or.inr hdone)
  have hf : s.finished = true := h.fin.mpr (Or.inr hrd)
  have heof := parseInts_eof (h.finEof hf)
  have hparse := h.parse
  rw [heof] at hparse
  simp only [List.append_nil] at hparse
  have hp1 : s.parsed = (parseInts cs).1 := by rw [hparse]
  have hp2 : (parseInts cs).2 = Term.eof := by rw [hparse]
  have hobs : s.observed = s.parsed := by
    have hsync := h.sync
    rw [hrd] at hsync
    simpa using hsync
  refine ⟨hp1, hp2, hobs, ?_⟩
  rw [h.outEq, hobs, hp1]

lemma flatMap_writeIntegerLines_length (vs : List Int) :
    (vs.flatMap writeIntegerLines).length
      = (vs.filter fun v => !(cRem v 2 == 0)).length
        + 2 * (vs.filter fun v => cRem v 2 == 0).length := by
  induction vs with
  | nil => simp
  | cons v vs ih =>
    by_cases hv : cRem v 2 = 0 <;>
      simp [writeIntegerLines, hv, List.filter_cons, ih] <;> omega

lemma isPrefix_flatMap {l1 l2 : List Int} (h : l1 <+: l2) (f : Int → List Int) :
    l1.flatMap f <+: l2.flatMap f := by
  obtain ⟨t, ht⟩ := h
  exact ⟨t.flatMap f, by rw [← List.flatMap_append, ht]⟩

/-! ## Concrete schedules

A schedule is a list of choices of which thread takes the next step; these
are used to exhibit concrete interleavings of the two threads. -/

/-- The start-up prefix in which the writer manages to wait on
`integerReadCondition` before the reader's first scan: the orchestrator opens
the output file and creates the threads, the writer locks and waits, the
reader opens the input file and acquires the mutex. -/
def startSched : List Tid :=
  [.main, .main, .writer, .reader, .reader]

/-- One complete handshake round: the reader publishes a value and waits, the
writer wakes, prints the value, signals back, and the reader reacquires the
mutex. -/
def cycleSched : List Tid :=
  [.reader, .writer, .writer, .reader]

/-- The shutdown suffix: the reader hits end of input, sets `finished`,
signals and unlocks; the writer wakes, sees `finished` and returns; the
reader closes the input file; the orchestrator joins both threads and closes
the output file. -/
def endSched : List Tid :=
  [.reader, .writer, .reader, .main, .main, .main]

/-- A schedule completing a run that parses exactly one integer. -/
def goodSched1 : List Tid := startSched ++ cycleSched ++ endSched

/-- A schedule completing a run that parses exactly two integers. -/
def goodSched2 : List Tid := startSched ++ cycleSched ++ cycleSched ++ endSched

/-- A schedule completing a run that parses exactly four integers. -/
def goodSched4 : List Tid :=
  startSched ++ cycleSched ++ cycleSched ++ cycleSched ++ cycleSched ++ endSched

/-- The schedule in which the reader runs to completion on an empty input
before the writer ever waits: the reader's `integerReadCondition` signal is
sent while nobody waits on it and is lost. -/
def readerFirstSched : List Tid :=
  [.main, .main, .reader, .reader, .reader, .reader, .writer, .main]

/-- A schedule reaching the reader's scan region with the mutex held. -/
def lockScanSched : List Tid := [.main, .main, .reader, .reader]

/-- A schedule reaching the abort on the first malformed token. -/
def abortSched : List Tid := [.main, .main, .writer, .reader, .reader, .reader]

/-! ## Reaching the abort from an arbitrary failing stream -/

/-- The canonical state in which the reader is at its scan region holding the
mutex, the writer waits on `integerReadCondition`, `p` values have been
parsed and fully processed, and `rest` is the unread input. -/
def scanState (rest : List Char) (sl : Int) (p : List Int) : Hw4State where
  mpc := .m2
  rpc := .rScan
  wpc := .wWait
  mutex := some .reader
  input := rest
  slot := sl
  finished := false
  aborted := false
  diagPrinted := false
  exitCode := none
  inOpen := true
  outOpen := true
  inOpenedBy := some .reader
  inClosedBy := none
  outOpenedBy := some .main
  outClosedBy := none
  parsed := p
  observed := p
  output := p.flatMap writeIntegerLines
  finishWrites := 0

lemma runSched_start (cs : List Char) (slot0 : Int) :
    runSched startSched (hw4Init cs slot0) = scanState cs slot0 [] := rfl

lemma runSched_cycle {rest rest' : List Char} {v : Int} (sl : Int) (p : List Int)
    (hscan : scanFileExact rest = .ok v rest') :
    runSched cycleSched (scanState rest sl p) = scanState rest' v (p ++ [v]) := by
  simp [runSched, cycleSched, stepOf, stepR, stepW, scanState, hscan,
    sigRead, sigWrote, List.flatMap_append]

/-- From any scan state whose unread input eventually produces a matching
failure, some interleaving reaches the aborted state. -/
lemma reach_abort_of_fail :
    ∀ (n : Nat) (rest : List Char) (sl : Int) (p : List Int), rest.length < n →
    (parseInts rest).2 = .fail →
    ∃ s2, Reach (scanState rest sl p) s2 ∧ s2.aborted = true
      ∧ s2.exitCode = some 1 ∧ s2.diagPrinted = true := by
  intro n
  induction n with
  | zero => intro rest _ _ h; omega
  | succ n ih =>
    intro rest sl p hlen hfail
    rcases hscan : scanFileExact rest with ⟨v, rest'⟩ | - | -
    · have hfail' : (parseInts rest').2 = .fail := by
        rw [parseInts_ok hscan] at hfail
        exact hfail
      have hlen' : rest'.length < n := by
        have := scanFileExact_ok_length hscan
        omega
      obtain ⟨s2, hr2, hab2, hex2, hdg2⟩ := ih rest' v (p ++ [v]) hlen' hfail'
      refine ⟨s2, ?_, hab2, hex2, hdg2⟩
      have hc := reach_runSched cycleSched (scanState rest sl p)
      rw [runSched_cycle sl p hscan] at hc
      exact Relation.ReflTransGen.trans hc hr2
    · rw [parseInts_eof hscan] at hfail
      exact absurd hfail (by simp)
    · refine ⟨{ scanState rest sl p with
                aborted := true, diagPrinted := true, exitCode := some 1,
                rpc := .rAbort }, ?_, rfl, rfl, rfl⟩
      refine reach_step .reader ?_
      simp [stepOf, stepR, scanState, hscan]

/-- The schedule prefix that just starts both threads. -/
def spawnSched : List Tid := [.main, .main]

lemma stepW_shared {s s2 : Hw4State} (h : stepW s = some s2) :
    s2.finished = s.finished ∧ s2.parsed = s.parsed
      ∧ s2.finishWrites = s.finishWrites := by
  unfold stepW at h
  repeat' split at h
  all_goals simp only [Option.some.injEq, reduceCtorEq] at h
  all_goals (subst h; exact ⟨rfl, rfl, rfl⟩)

lemma stepM_shared {s s2 : Hw4State} (h : stepM s = some s2) :
    s2.finished = s.finished ∧ s2.parsed = s.parsed
      ∧ s2.finishWrites = s.finishWrites := by
  unfold stepM at h
  repeat' split at h
  all_goals simp only [Option.some.injEq, reduceCtorEq] at h
  all_goals (subst h; exact ⟨rfl, rfl, rfl⟩)

/-! ## The claims -/

/-- C1: for every run of `hw4` that completes, each input integer `v`
produces exactly one output line containing `v` if `v` is odd and exactly two
consecutive output lines if `v` is even, in input order — the output is the
in-order concatenation of `writeIntegerLines` over the parsed input — and the
total output line count is (number of odd inputs) + 2 × (number of even
inputs); in particular input `1\n2\n3\n4\n` yields output lines
`1, 2, 2, 3, 4, 4`. -/
theorem c1_transform_law (cs : List Char) (slot0 : Int) (s : Hw4State)
    (hr : Reach (hw4Init cs slot0) s) (hdone : s.mpc = .mDone) :
    s.output = (parseInts cs).1.flatMap writeIntegerLines
    ∧ s.output.length
        = ((parseInts cs).1.filter fun v => !(cRem v 2 == 0)).length
          + 2 * ((parseInts cs).1.filter fun v => cRem v 2 == 0).length
    ∧ (cs = "1\n2\n3\n4\n".toList → s.output = [1, 2, 2, 3, 4, 4]) := by
  obtain ⟨hp1, hp2, hobs, hout⟩ := final_state (reach_inv hr) hdone
  refine ⟨hout, ?_, ?_⟩
  · rw [hout, flatMap_writeIntegerLines_length]
  · intro hcs
    subst hcs
    rw [hout]
    decide

theorem c1_transform_law_witness :
    (runSched goodSched4 (hw4Init ("1\n2\n3\n4\n".toList) 0)).output
      = [1, 2, 2, 3, 4, 4] :=
  (c1_transform_law _ 0 _ (reach_runSched goodSched4 _) (by decide)).2.2 rfl

/-- C2: in every reachable state the sequence of values observed by the
writer thread is a prefix of (no drop in the middle, no duplication, no
reordering of) the sequence parsed by the reader thread, and in every
completed run the two sequences are equal and equal to the parsed input. -/
theorem c2_alternation (cs : List Char) (slot0 : Int) (s : Hw4State)
    (hr : Reach (hw4Init cs slot0) s) :
    s.observed <+: s.parsed
    ∧ (s.mpc = .mDone → s.observed = s.parsed ∧ s.parsed = (parseInts cs).1) := by
  have hInv := reach_inv hr
  constructor
  · have hsync := hInv.sync
    by_cases hrw : s.rpc = .rWait
    · rw [if_pos hrw] at hsync
      exact ⟨[s.slot], hsync.symm⟩
    · rw [if_neg hrw] at hsync
      rw [hsync]
  · intro hdone
    obtain ⟨hp1, -, hobs, -⟩ := final_state hInv hdone
    exact ⟨hobs, hp1⟩

theorem c2_alternation_witness :
    (runSched goodSched4 (hw4Init ("1\n2\n3\n4\n".toList) 0)).observed
      = (runSched goodSched4 (hw4Init ("1\n2\n3\n4\n".toList) 0)).parsed :=
  ((c2_alternation _ 0 _ (reach_runSched goodSched4 _)).2 (by decide)).1

/-- C3: the claim that both loops terminate and `hw4` returns under every
interleaving is refuted by the code: on the empty input, the interleaving in
which the reader thread runs to completion before the writer thread first
waits on `integerReadCondition` loses the reader's only signal, and reaches a
state in which the writer is parked in `pthread_cond_wait` forever and `hw4`
is blocked in `safePthreadJoin` on the writer — no thread has any enabled
step, yet `hw4` has not returned. -/
theorem c3_termination_deadlock :
    Reach (hw4Init [] 0) (runSched readerFirstSched (hw4Init [] 0))
    ∧ (runSched readerFirstSched (hw4Init [] 0)).mpc = .m3
    ∧ (runSched readerFirstSched (hw4Init [] 0)).rpc = .rDone
    ∧ (runSched readerFirstSched (hw4Init [] 0)).wpc = .wWait
    ∧ (runSched readerFirstSched (hw4Init [] 0)).output = []
    ∧ stepM (runSched readerFirstSched (hw4Init [] 0)) = none
    ∧ stepR (runSched readerFirstSched (hw4Init [] 0)) = none
    ∧ stepW (runSched readerFirstSched (hw4Init [] 0)) = none :=
  ⟨reach_runSched _ _, by decide, by decide, by decide, by decide,
    by decide, by decide, by decide⟩

/-- C4: on an input whose parse ends in a matching failure, every reachable
state's output is a prefix of the transform of the integers parsed before the
malformed line (no output lines for anything after it), any aborted state
carries a non-zero exit code and a printed diagnostic, and a state in which
the process has aborted with non-zero exit and a diagnostic is reachable. -/
theorem c4_malformed_input (cs : List Char) (slot0 : Int) (s : Hw4State)
    (hr : Reach (hw4Init cs slot0) s) (hbad : (parseInts cs).2 = .fail) :
    s.output <+: (parseInts cs).1.flatMap writeIntegerLines
    ∧ (s.aborted = true → s.exitCode = some 1 ∧ s.diagPrinted = true)
    ∧ ∃ s2, Reach (hw4Init cs slot0) s2 ∧ s2.aborted = true
        ∧ s2.exitCode = some 1 ∧ s2.diagPrinted = true := by
  have hInv := reach_inv hr
  refine ⟨?_, ?_, ?_⟩
  · have hobs : s.observed <+: s.parsed := by
      have hsync := hInv.sync
      by_cases hrw : s.rpc = .rWait
      · rw [if_pos hrw] at hsync
        exact ⟨[s.slot], hsync.symm⟩
      · rw [if_neg hrw] at hsync
        rw [hsync]
    have hpar : s.parsed <+: (parseInts cs).1 :=
      ⟨(parseInts s.input).1, by rw [hInv.parse]⟩
    rw [hInv.outEq]
    exact isPrefix_flatMap (hobs.trans hpar) _
  · intro hab
    exact ⟨by rw [hInv.exitC, if_pos hab], by rw [hInv.diagEq, hab]⟩
  · obtain ⟨s2, hr2, hab2, hex2, hdg2⟩ :=
      reach_abort_of_fail (cs.length + 1) cs slot0 [] (by omega) hbad
    refine ⟨s2, ?_, hab2, hex2, hdg2⟩
    have hstart := reach_runSched startSched (hw4Init cs slot0)
    rw [runSched_start] at hstart
    exact Relation.ReflTransGen.trans hstart hr2

theorem c4_malformed_input_witness :
    (runSched abortSched (hw4Init ("abc\n".toList) 0)).exitCode = some 1
    ∧ (runSched abortSched (hw4Init ("abc\n".toList) 0)).diagPrinted = true
    ∧ (runSched abortSched (hw4Init ("abc\n".toList) 0)).output = [] := by
  have h := c4_malformed_input ("abc\n".toList) 0 _
    (reach_runSched abortSched _) (by decide)
  exact ⟨(h.2.1 (by decide)).1, (h.2.1 (by decide)).2, by decide⟩

/-- C5 counterexample: on the input `abc\n` the run does not stop cleanly at
the failing line — the process aborts from `scanFileExactVA` with a non-zero
exit before the reader ever executes `*finishedPtr = true`, so `finish` is
never signalled and the run does not complete normally. -/
theorem c5_counterexample :
    (runSched abortSched (hw4Init ("abc\n".toList) 0)).aborted = true
    ∧ (runSched abortSched (hw4Init ("abc\n".toList) 0)).finished = false
    ∧ (runSched abortSched (hw4Init ("abc\n".toList) 0)).finishWrites = 0
    ∧ (runSched abortSched (hw4Init ("abc\n".toList) 0)).exitCode = some 1
    ∧ stepM (runSched abortSched (hw4Init ("abc\n".toList) 0)) = none
    ∧ stepR (runSched abortSched (hw4Init ("abc\n".toList) 0)) = none
    ∧ stepW (runSched abortSched (hw4Init ("abc\n".toList) 0)) = none
    ∧ (runSched abortSched (hw4Init ("abc\n".toList) 0)).mpc ≠ .mDone := by
  decide

/-- C5 (amended): the producer signals end-of-stream via `finished` only at a
clean end of input, having parsed all of it; at the first line that fails to
match `%d`-and-whitespace the process aborts instead, with `finished` never
set. -/
theorem c5_finish_only_at_eof (cs : List Char) (slot0 : Int) (s : Hw4State)
    (hr : Reach (hw4Init cs slot0) s) :
    (s.finished = true → (parseInts cs).2 = .eof ∧ s.parsed = (parseInts cs).1)
    ∧ (s.aborted = true → (parseInts cs).2 = .fail ∧ s.finished = false) := by
  have hInv := reach_inv hr
  constructor
  · intro hf
    have heof := parseInts_eof (hInv.finEof hf)
    have hparse := hInv.parse
    rw [heof] at hparse
    simp only [List.append_nil] at hparse
    exact ⟨by rw [hparse], by rw [hparse]⟩
  · intro hab
    have hfail := parseInts_fail (hInv.abFail hab)
    have hparse := hInv.parse
    rw [hfail] at hparse
    refine ⟨by rw [hparse], ?_⟩
    have hra := hInv.abt.mp hab
    by_cases hf : s.finished = true
    · rcases hInv.fin.mp hf with h1 | h1 <;> rw [hra] at h1 <;>
        exact absurd h1 (by decide)
    · simpa using hf

theorem c5_finish_only_at_eof_witness :
    (parseInts ("1\n".toList)).2 = .eof
    ∧ (runSched goodSched1 (hw4Init ("1\n".toList) 0)).parsed
        = (parseInts ("1\n".toList)).1 :=
  (c5_finish_only_at_eof _ 0 _ (reach_runSched goodSched1 _)).1 (by decide)

/-- C6: in every reachable state the `finished` flag has been written at most
once and it is set exactly when one write happened (false→true exactly once,
monotone); the writer and orchestrator never change it; once it is true no
step of any thread unsets it, writes it again, or publishes another value;
and whenever the writer is about to test `finished` (at `wRelock`) with
`finished` true, no untaken value is pending (everything parsed has been
observed). -/
theorem c6_done_flag (cs : List Char) (slot0 : Int) (s : Hw4State)
    (hr : Reach (hw4Init cs slot0) s) :
    s.finishWrites ≤ 1
    ∧ (s.finished = true ↔ s.finishWrites = 1)
    ∧ (∀ s2, stepW s = some s2 → s2.finished = s.finished)
    ∧ (∀ s2, stepM s = some s2 → s2.finished = s.finished)
    ∧ (∀ t s2, stepOf t s = some s2 → s.finished = true →
        s2.finished = true ∧ s2.finishWrites = s.finishWrites
          ∧ s2.parsed = s.parsed)
    ∧ (s.wpc = .wRelock → s.finished = true → s.observed = s.parsed) := by
  have hInv := reach_inv hr
  have hfw := hInv.fw
  refine ⟨?_, ?_, ?_, ?_, ?_, ?_⟩
  · rw [hfw]
    split <;> omega
  · rw [hfw]
    by_cases hf : s.finished = true <;> simp [hf]
  · intro s2 h2
    exact (stepW_shared h2).1
  · intro s2 h2
    exact (stepM_shared h2).1
  · intro t s2 h2 hf
    have hab : ¬s.aborted = true := by
      intro hh
      have hra := hInv.abt.mp hh
      rcases hInv.fin.mp hf with h1 | h1 <;> rw [hra] at h1 <;>
        exact absurd h1 (by decide)
    cases t
    · obtain ⟨e1, e2, e3⟩ := stepM_shared h2
      exact ⟨e1.trans hf, e3, e2⟩
    · rcases hInv.fin.mp hf with h1 | h1
      · simp only [stepOf] at h2
        unfold stepR at h2
        rw [if_neg hab, h1] at h2
        dsimp only at h2
        simp only [Option.some.injEq] at h2
        subst h2
        exact ⟨hf, rfl, rfl⟩
      · simp only [stepOf] at h2
        unfold stepR at h2
        rw [if_neg hab, h1] at h2
        exact absurd h2 (by simp)
    · obtain ⟨e1, e2, e3⟩ := stepW_shared h2
      exact ⟨e1.trans hf, e3, e2⟩
  · intro hwr hf
    have hsync := hInv.sync
    rcases hInv.fin.mp hf with h1 | h1 <;>
      rw [if_neg (fun hh => by rw [h1] at hh; exact absurd hh (by decide))] at hsync <;>
      exact hsync

theorem c6_done_flag_witness :
    (runSched goodSched1 (hw4Init ("1\n".toList) 0)).finishWrites ≤ 1
    ∧ ((runSched goodSched1 (hw4Init ("1\n".toList) 0)).finished = true
        ↔ (runSched goodSched1 (hw4Init ("1\n".toList) 0)).finishWrites = 1) := by
  have h := c6_done_flag ("1\n".toList) 0 _ (reach_runSched goodSched1 _)
  exact ⟨h.1, h.2.1⟩

/-- C7 counterexample: the reader reaches its `scanFileExact` call (src/hw4.c
line 107, a blocking file read) in a reachable state in which it holds
`syncMutex` — file I/O is performed inside the critical section, refuting the
claim that all file I/O happens outside it. -/
theorem c7_io_under_lock_counterexample :
    Reach (hw4Init ("1\n".toList) 0)
      (runSched lockScanSched (hw4Init ("1\n".toList) 0))
    ∧ (runSched lockScanSched (hw4Init ("1\n".toList) 0)).rpc = .rScan
    ∧ (runSched lockScanSched (hw4Init ("1\n".toList) 0)).mutex
        = some Tid.reader :=
  ⟨reach_runSched _ _, by decide, by decide⟩

/-- C7 (amended): both loops perform their file I/O while holding the sync
mutex — whenever the reader is at its `scanFileExact` call it holds the
mutex, and whenever the writer is at its `fprintf` call it holds the mutex;
only `fopen`/`fclose` happen outside the critical section. -/
theorem c7_io_inside_critical_section (cs : List Char) (slot0 : Int)
    (s : Hw4State) (hr : Reach (hw4Init cs slot0) s) :
    (s.rpc = .rScan → s.mutex = some Tid.reader)
    ∧ (s.wpc = .wWrite → s.mutex = some Tid.writer) := by
  have hInv := reach_inv hr
  constructor
  · intro h1
    rw [hInv.mux]
    unfold mutexOf
    rw [if_pos (Or.inl h1)]
  · intro h2
    have hrw : s.rpc = .rWait := by
      have ok := hInv.ok
      rw [h2] at ok
      rcases hh : s.rpc <;> rw [hh] at ok <;>
        first | rfl | exact absurd ok (by decide)
    rw [hInv.mux, hrw, h2]
    rfl

theorem c7_io_inside_critical_section_witness :
    (runSched lockScanSched (hw4Init ("1\n".toList) 0)).mutex
      = some Tid.reader :=
  (c7_io_inside_critical_section _ 0 _
    (reach_runSched lockScanSched _)).1 (by decide)

/-- C8 counterexample: right after `hw4` creates the two threads the input
file is not yet open, and in a completed run the ledger shows the input file
was opened and closed by the reader thread, not by `hw4` — refuting the claim
that `hw4` opens both handles before the loops start and that neither loop
opens or closes a resource. -/
theorem c8_ownership_counterexample :
    Reach (hw4Init ("1\n".toList) 0)
      (runSched spawnSched (hw4Init ("1\n".toList) 0))
    ∧ (runSched spawnSched (hw4Init ("1\n".toList) 0)).mpc = .m2
    ∧ (runSched spawnSched (hw4Init ("1\n".toList) 0)).inOpen = false
    ∧ (runSched goodSched1 (hw4Init ("1\n".toList) 0)).mpc = .mDone
    ∧ (runSched goodSched1 (hw4Init ("1\n".toList) 0)).inOpenedBy
        = some Tid.reader
    ∧ (runSched goodSched1 (hw4Init ("1\n".toList) 0)).inClosedBy
        = some Tid.reader :=
  ⟨reach_runSched _ _, by decide, by decide, by decide, by decide, by decide⟩

/-- C8 (amended): the output handle is owned by `hw4` — opened by the
orchestrator before the loops start and closed by it only after both loops
have terminated, with the writer merely borrowing it — while the input handle
is owned by the reader loop, which opens and closes it itself; `hw4` never
touches the input file. -/
theorem c8_resource_ownership (cs : List Char) (slot0 : Int) (s : Hw4State)
    (hr : Reach (hw4Init cs slot0) s) :
    (s.rpc ≠ .rIdle → s.outOpenedBy = some Tid.main)
    ∧ (s.outClosedBy ≠ none →
        s.outClosedBy = some Tid.main ∧ s.rpc = .rDone ∧ s.wpc = .wDone)
    ∧ (s.inOpenedBy = none ∨ s.inOpenedBy = some Tid.reader)
    ∧ (s.inClosedBy = none ∨ s.inClosedBy = some Tid.reader) := by
  have hInv := reach_inv hr
  refine ⟨?_, ?_, ?_, ?_⟩
  · intro hni
    rw [hInv.outOB, if_neg ?_]
    intro hm0
    exact absurd (hInv.spawned.mp (Or.inl hm0)) hni
  · intro hnc
    rw [hInv.outCB] at hnc ⊢
    by_cases hm : s.mpc = .mDone
    · obtain ⟨h1, h2⟩ := hInv.joinW (Or.inr hm)
      rw [if_pos hm]
      exact ⟨rfl, h1, h2⟩
    · rw [if_neg hm] at hnc
      exact absurd rfl hnc
  · rw [hInv.inOB]
    split
    · exact Or.inl rfl
    · exact Or.inr rfl
  · rw [hInv.inCB]
    split
    · exact Or.inr rfl
    · exact Or.inl rfl

theorem c8_resource_ownership_witness :
    (runSched goodSched1 (hw4Init ("1\n".toList) 0)).outOpenedBy
      = some Tid.main :=
  (c8_resource_ownership _ 0 _ (reach_runSched goodSched1 _)).1 (by decide)

/-- C9: because the format is `"%d\n"` and a whitespace directive (and the
whitespace skipping of `%d`) matches any whitespace run, a space separates
integers exactly as a newline does: `scanFileExact` cannot distinguish a
leading space from a leading newline, the input `4 7` parses to the same
integer list as `4\n7\n`, and complete runs of `hw4` on the two inputs
produce identical output. -/
theorem c9_whitespace_delimiters :
    (∀ cs : List Char, scanFileExact (' ' :: cs) = scanFileExact ('\n' :: cs))
    ∧ parseInts ("4 7".toList) = ([4, 7], .eof)
    ∧ parseInts ("4\n7\n".toList) = ([4, 7], .eof)
    ∧ (runSched goodSched2 (hw4Init ("4 7".toList) 0)).mpc = .mDone
    ∧ (runSched goodSched2 (hw4Init ("4\n7\n".toList) 0)).mpc = .mDone
    ∧ (runSched goodSched2 (hw4Init ("4 7".toList) 0)).output
        = (runSched goodSched2 (hw4Init ("4\n7\n".toList) 0)).output := by
  refine ⟨?_, by decide, by decide, by decide, by decide, by decide⟩
  intro cs
  have h : skipWs (' ' :: cs) = skipWs ('\n' :: cs) := by
    simp [skipWs, isSpaceC]
  unfold scanFileExact
  rw [h]

/-- C10: the writer's parity test is the C remainder check
`readInteger % 2 == 0` (truncated-division remainder), which holds exactly
for the integers divisible by 2 — so zero and every negative even integer
are written twice and every negative odd integer once, extending the
transform unchanged to zero and negative inputs. -/
theorem c10_c_remainder_parity :
    writeIntegerLines 0 = [0, 0]
    ∧ (∀ v : Int, cRem v 2 = 0 ↔ (2 : Int) ∣ v)
    ∧ (∀ v : Int, v < 0 → (2 : Int) ∣ v → writeIntegerLines v = [v, v])
    ∧ (∀ v : Int, v < 0 → ¬(2 : Int) ∣ v → writeIntegerLines v = [v]) := by
  have hiff : ∀ v : Int, cRem v 2 = 0 ↔ (2 : Int) ∣ v := fun v =>
    ⟨Int.dvd_of_tmod_eq_zero, Int.tmod_eq_zero_of_dvd⟩
  refine ⟨by decide, hiff, ?_, ?_⟩
  · intro v _ hdvd
    simp only [writeIntegerLines, if_pos ((hiff v).mpr hdvd)]
  · intro v _ hdvd
    simp only [writeIntegerLines, if_neg (fun h0 => hdvd ((hiff v).mp h0))]

theorem c10_c_remainder_parity_witness :
    writeIntegerLines (-4) = [-4, -4] ∧ writeIntegerLines (-3) = [-3] :=
  ⟨c10_c_remainder_parity.2.2.1 (-4) (by decide) (by decide),
   c10_c_remainder_parity.2.2.2 (-3) (by decide) (by decide)⟩

end Hw4
